import Mathlib

/-!
Verification of the TradeBot trading client.

Shallow embedding of the decision-parsing layer (`handlers/response_parser.py`),
the LLM decision client (`services/openai_simple_handler.py`) and the
execution logic of the orchestrator (`trading_bot.py`).  Python floats are modelled
as rationals, JSON values as an inductive type, and the stateful handler as an
explicit state-passing function.
-/

/-! ## Character and whitespace utilities -/

/-- JSON structural whitespace (as accepted by `json.loads`). -/
def isJsonWs (c : Char) : Bool :=
  c = ' ' || c = '\t' || c = '\n' || c = '\r'

/-- Whitespace as treated by Python `str.strip()` and the regex class `\s`
(restricted to the ASCII range). -/
def isPyWs (c : Char) : Bool :=
  c = ' ' || c = '\t' || c = '\n' || c = '\r' || c = '\x0b' || c = '\x0c'

/-- Drop leading JSON whitespace. -/
def dropJsonWs (l : List Char) : List Char := l.dropWhile isJsonWs

/-- Drop leading Python whitespace. -/
def dropPyWs (l : List Char) : List Char := l.dropWhile isPyWs

/-- Strip Python whitespace from both ends (`str.strip()`). -/
def pyStripL (l : List Char) : List Char :=
  ((l.dropWhile isPyWs).reverse.dropWhile isPyWs).reverse

/-- Embedding of `str.strip()` on strings. -/
def pyStrip (s : String) : String := String.mk (pyStripL s.data)

theorem length_dropWhile_le (p : Char → Bool) (l : List Char) :
    (l.dropWhile p).length ≤ l.length := by
  induction l with
  | nil => simp [List.dropWhile]
  | cons h t ih =>
    by_cases hp : p h
    · simp [List.dropWhile, hp]; omega
    · simp [List.dropWhile, hp]

/-! ## JSON values

Model of the result of Python `json.loads`: numbers are collapsed to a single
rational-valued constructor (the int/float distinction is irrelevant to every
claim). -/

inductive JVal where
  | jnull
  | jbool (b : Bool)
  | jnum (q : ℚ)
  | jstr (s : String)
  | jarr (elems : List JVal)
  | jobj (fields : List (String × JVal))

/-- Dictionary lookup on a decoded JSON object.  Python keeps the last binding
for duplicate keys, hence the left fold that lets later entries win. -/
def getField (fields : List (String × JVal)) (key : String) : Option JVal :=
  fields.foldl (fun acc kv => if kv.1 = key then some kv.2 else acc) none

/-! ## JSON decoder

Executable model of `json.loads` (strict mode): objects, arrays, strings with
the standard escapes, numbers, `true`/`false`/`null`.  The parser is written
with a fuel argument; the fuel supplied by `jsonDecode` always suffices because
every recursive call follows the consumption of at least one input character.
The Python extensions `NaN`/`Infinity` are not modelled (the decoder rejects
them); no claim concerns them. -/

def hexDigit (c : Char) : Option ℕ :=
  let n := c.toNat
  if 48 ≤ n ∧ n ≤ 57 then some (n - 48)
  else if 97 ≤ n ∧ n ≤ 102 then some (n - 87)
  else if 65 ≤ n ∧ n ≤ 70 then some (n - 55)
  else none

def isDigitC (c : Char) : Bool := 48 ≤ c.toNat && c.toNat ≤ 57

def digitsToNat (l : List Char) : ℕ :=
  l.foldl (fun a c => a * 10 + (c.toNat - 48)) 0

/-- Parse a JSON number starting at the given characters. -/
def parseNumber (l : List Char) : Option (ℚ × List Char) :=
  let signed : Bool × List Char :=
    match l with
    | '-' :: rest => (true, rest)
    | _ => (false, l)
  let neg := signed.1
  let l1 := signed.2
  let ds := l1.takeWhile isDigitC
  let l2 := l1.dropWhile isDigitC
  if ds = [] then none
  else if 1 < ds.length ∧ ds.headD '0' = '0' then none
  else
    let ip : ℚ := (digitsToNat ds : ℚ)
    let fracParsed : Option (ℚ × List Char) :=
      match l2 with
      | '.' :: l3 =>
        let fs := l3.takeWhile isDigitC
        if fs = [] then none
        else some (ip + (digitsToNat fs : ℚ) / ((10 : ℚ) ^ fs.length), l3.dropWhile isDigitC)
      | _ => some (ip, l2)
    match fracParsed with
    | none => none
    | some (mant, l4) =>
      let expParsed : Option (ℚ × List Char) :=
        match l4 with
        | e :: l5 =>
          if e = 'e' ∨ e = 'E' then
            let esigned : Bool × List Char :=
              match l5 with
              | '-' :: r => (true, r)
              | '+' :: r => (false, r)
              | _ => (false, l5)
            let es := esigned.2.takeWhile isDigitC
            if es = [] then none
            else
              let ev : ℤ := if esigned.1 then -(digitsToNat es : ℤ) else (digitsToNat es : ℤ)
              some (mant * (10 : ℚ) ^ ev, esigned.2.dropWhile isDigitC)
          else some (mant, l4)
        | [] => some (mant, l4)
      match expParsed with
      | none => none
      | some (v, l6) => some ((if neg then -v else v), l6)

/-- Parse the body of a JSON string after the opening quote.  Strict mode:
unescaped control characters are rejected. -/
def parseStrBody : ℕ → List Char → Option (List Char × List Char)
  | 0, _ => none
  | _, [] => none
  | fuel + 1, c :: cs =>
    if c = '"' then some ([], cs)
    else if c = '\\' then
      match cs with
      | [] => none
      | e :: cs2 =>
        let esc : Option (Char × List Char) :=
          if e = '"' then some ('"', cs2)
          else if e = '\\' then some ('\\', cs2)
          else if e = '/' then some ('/', cs2)
          else if e = 'b' then some ('\x08', cs2)
          else if e = 'f' then some ('\x0c', cs2)
          else if e = 'n' then some ('\n', cs2)
          else if e = 'r' then some ('\r', cs2)
          else if e = 't' then some ('\t', cs2)
          else if e = 'u' then
            match cs2 with
            | h1 :: h2 :: h3 :: h4 :: cs3 =>
              match hexDigit h1, hexDigit h2, hexDigit h3, hexDigit h4 with
              | some a, some b, some c2, some d =>
                some (Char.ofNat (((a * 16 + b) * 16 + c2) * 16 + d), cs3)
              | _, _, _, _ => none
            | _ => none
          else none
        match esc with
        | some (ch, rest) =>
          match parseStrBody fuel rest with
          | some (content, r2) => some (ch :: content, r2)
          | none => none
        | none => none
    else if c.toNat < 32 then none
    else
      match parseStrBody fuel cs with
      | some (content, r2) => some (c :: content, r2)
      | none => none

mutual

def parseVal : ℕ → List Char → Option (JVal × List Char)
  | 0, _ => none
  | fuel + 1, l =>
    match dropJsonWs l with
    | [] => none
    | c :: cs =>
      if c = '\x7b' then
        match dropJsonWs cs with
        | '\x7d' :: rest => some (.jobj [], rest)
        | l2 => match parseMembers fuel l2 [] with
                | some (fields, rest) => some (.jobj fields, rest)
                | none => none
      else if c = '[' then
        match dropJsonWs cs with
        | ']' :: rest => some (.jarr [], rest)
        | l2 => match parseElems fuel l2 [] with
                | some (elems, rest) => some (.jarr elems, rest)
                | none => none
      else if c = '"' then
        match parseStrBody (fuel + 1) cs with
        | some (content, rest) => some (.jstr (String.mk content), rest)
        | none => none
      else if c = 't' then
        if cs.take 3 = ['r', 'u', 'e'] then some (.jbool true, cs.drop 3) else none
      else if c = 'f' then
        if cs.take 4 = ['a', 'l', 's', 'e'] then some (.jbool false, cs.drop 4) else none
      else if c = 'n' then
        if cs.take 3 = ['u', 'l', 'l'] then some (.jnull, cs.drop 3) else none
      else
        match parseNumber (c :: cs) with
        | some (q, rest) => some (.jnum q, rest)
        | none => none

def parseMembers : ℕ → List Char → List (String × JVal) →
    Option (List (String × JVal) × List Char)
  | 0, _, _ => none
  | fuel + 1, l, acc =>
    match l with
    | '"' :: cs =>
      match parseStrBody (fuel + 1) cs with
      | some (key, l2) =>
        match dropJsonWs l2 with
        | ':' :: l3 =>
          match parseVal fuel l3 with
          | some (v, l4) =>
            let acc2 := acc ++ [(String.mk key, v)]
            match dropJsonWs l4 with
            | ',' :: l5 => parseMembers fuel (dropJsonWs l5) acc2
            | '\x7d' :: l5 => some (acc2, l5)
            | _ => none
          | none => none
        | _ => none
      | none => none
    | _ => none

def parseElems : ℕ → List Char → List JVal → Option (List JVal × List Char)
  | 0, _, _ => none
  | fuel + 1, l, acc =>
    match parseVal fuel l with
    | some (v, l2) =>
      match dropJsonWs l2 with
      | ',' :: l3 => parseElems fuel l3 (acc ++ [v])
      | ']' :: l3 => some (acc ++ [v], l3)
      | _ => none
    | none => none

end

/-- Model of `json.loads`: decode one value and require only whitespace after
it. -/
def jsonDecode (s : String) : Option JVal :=
  match parseVal (s.length + 2) s.data with
  | some (v, rest) => if dropJsonWs rest = [] then some v else none
  | none => none

/-! ## `ResponseParser.clean_json_response`

Embedding of `handlers/response_parser.py` lines 29-52: remove markdown code
fences (`re.sub` of the patterns given by three backticks plus `json` and a
whitespace run, then three backticks plus a whitespace run), strip the result,
then extract the first-to-last brace region found by the greedy regex search
for an opening brace, anything, a closing brace (DOTALL). -/

/-- One `re.sub(pat ++ whitespace-run, "")` pass: scan left to right, drop each
non-overlapping occurrence of the literal pattern together with the whitespace
run that follows it. -/
def stripFencesAux (pat : List Char) : ℕ → List Char → List Char
  | 0, l => l
  | _ + 1, [] => []
  | fuel + 1, c :: cs =>
    if pat ≠ [] ∧ pat.isPrefixOf (c :: cs) then
      stripFencesAux pat fuel (dropPyWs ((c :: cs).drop pat.length))
    else
      c :: stripFencesAux pat fuel cs

/-- Run the substitution pass.  The fuel equal to the input length always
suffices: every recursive step strictly shortens the list. -/
def stripFences (pat : List Char) (l : List Char) : List Char :=
  stripFencesAux pat l.length l

/-- The greedy brace-region search: match from the first opening brace to the
last closing brace when the latter comes after the former, otherwise leave the
text unchanged. -/
def braceSlice (l : List Char) : List Char :=
  match l.findIdx? (· = '\x7b') with
  | none => l
  | some i =>
    match l.reverse.findIdx? (· = '\x7d') with
    | none => l
    | some rj =>
      let j := l.length - 1 - rj
      if i < j then (l.drop i).take (j - i + 1) else l

/-- Embedding of `ResponseParser.clean_json_response`. -/
def clean_json_response (s : String) : String :=
  let l1 := stripFences "```json".data s.data
  let l2 := stripFences "```".data l1
  String.mk (braceSlice (pyStripL l2))

/-! ## Decision model

`models/responses.py`: the four decision variants.  The inherited bookkeeping
fields of the pydantic base model (`id`, `created_at`, `updated_at`, all
auto-defaulted) are not modelled; unknown extra JSON keys are ignored by the
pydantic configuration in `models/base.py` (no `extra` override). -/

inductive Decision where
  | pause (response : String)
  | buy (response : String) (buy_amount take_profit_percent stop_loss_percent : ℚ)
  | sell (response : String) (sell_amount : ℚ)
  | cancel (response : String) (order_id : String)
deriving DecidableEq

/-- The errors raised by `ResponseParser` (`ResponseParseError`), distinguished
by the message the code attaches.  `unexpected` stands for the generic handler
of `parse_response` that wraps any other exception (in particular pydantic
validation errors) in a `ResponseParseError`. -/
inductive ParseErr where
  | invalidJson
  | notObject
  | missingStatus
  | missingResponse
  | missingBuyFields (missing : List String)
  | missingSellAmount
  | missingOrderId
  | validationFailed
  | unexpected
deriving DecidableEq

instance {ε α : Type} [DecidableEq ε] [DecidableEq α] : DecidableEq (Except ε α) := fun x y =>
  match x, y with
  | .ok a, .ok b =>
    if h : a = b then .isTrue (by rw [h]) else .isFalse (by intro hc; cases hc; exact h rfl)
  | .error a, .error b =>
    if h : a = b then .isTrue (by rw [h]) else .isFalse (by intro hc; cases hc; exact h rfl)
  | .ok _, .error _ => .isFalse (by intro hc; cases hc)
  | .error _, .ok _ => .isFalse (by intro hc; cases hc)

/-- The closed status set (`valid_statuses` in `parse_response`). -/
def validStatuses : List String := ["pause", "buy", "sell", "cancel"]

/-- The three JSON fields required of a buy decision. -/
def requiredBuyFields : List String :=
  ["buy_amount", "take_profit_percent", "stop_loss_percent"]

/-- Python `str()` of a decoded JSON value, used when `parse_response` rewrites
an invalid status and stringifies the original `response` value.  Only the
string case is exercised by the theorems below (they constrain `response` to a
JSON string); the renderings of the other cases are approximations. -/
def pyStr : JVal → String
  | .jstr s => s
  | .jnum q => toString q
  | .jbool b => if b then "True" else "False"
  | .jnull => "None"
  | .jarr _ => "[...]"
  | .jobj _ => "\x7b...\x7d"

/-- The note `parse_response` writes into `response` when it rewrites an
invalid status to `pause` (source line 102). -/
def fixedStatusNote (origStatus : String) (origResp : JVal) : String :=
  "Исправлен неправильный статус \x27" ++ origStatus ++ "\x27 на pause. " ++ pyStr origResp

/-- Python `str.lower()` restricted to ASCII (every status the claims deal
with is ASCII; `Char.toLower` is the ASCII case map). -/
def pyToLower (s : String) : String := String.mk (s.data.map Char.toLower)

/-- Pydantic validation of a `str` field value. -/
def asStr : JVal → Option String
  | .jstr s => some s
  | _ => none

/-- Pydantic validation of a `float` field declared with `gt=0`. -/
def asPosNum : JVal → Option ℚ
  | .jnum q => if 0 < q then some q else none
  | _ => none

/-- Dispatch of `parse_response` (source lines 104-141) on the known statuses,
including the pydantic construction of the decision model. -/
def parseDispatch (fields : List (String × JVal)) (s : String) (rv : JVal) :
    Except ParseErr Decision :=
  if s = "pause" then
    match asStr rv with
    | some r => .ok (.pause r)
    | none => .error .unexpected
  else if s = "buy" then
    let missing := requiredBuyFields.filter (fun f => (getField fields f).isNone)
    if missing = [] then
      match asStr rv, (getField fields "buy_amount").bind asPosNum,
            (getField fields "take_profit_percent").bind asPosNum,
            (getField fields "stop_loss_percent").bind asPosNum with
      | some r, some a, some tp, some sl => .ok (.buy r a tp sl)
      | _, _, _, _ => .error .unexpected
    else .error (.missingBuyFields missing)
  else if s = "sell" then
    if (getField fields "sell_amount").isNone then .error .missingSellAmount
    else
      match asStr rv, (getField fields "sell_amount").bind asPosNum with
      | some r, some a => .ok (.sell r a)
      | _, _ => .error .unexpected
  else if s = "cancel" then
    if (getField fields "order_id").isNone then .error .missingOrderId
    else
      match asStr rv, (getField fields "order_id").bind asStr with
      | some r, some oid => .ok (.cancel r oid)
      | _, _ => .error .unexpected
  else .error .unexpected

/-- Embedding of `parse_response` after JSON decoding (source lines 82-141): require an
object with `status` and `response`, lower-case the status, silently rewrite an
unknown status to a `pause` decision, otherwise dispatch.  A non-string status
makes `.lower()` raise, which the generic handler wraps (`unexpected`). -/
def parseResponseData : JVal → Except ParseErr Decision
  | .jobj fields =>
    match getField fields "status" with
    | none => .error .missingStatus
    | some stv =>
      match getField fields "response" with
      | none => .error .missingResponse
      | some rv =>
        match stv with
        | .jstr s0 =>
          let s := pyToLower s0
          if s ∈ validStatuses then parseDispatch fields s rv
          else .ok (.pause (fixedStatusNote s0 rv))
        | _ => .error .unexpected
  | _ => .error .notObject

/-- Embedding of `ResponseParser.parse_response`: clean, decode, dispatch. -/
def parse_response (s : String) : Except ParseErr Decision :=
  match jsonDecode (clean_json_response s) with
  | none => .error .invalidJson
  | some v => parseResponseData v

/-- Embedding of `ResponseParser.validate_decision` (source lines 150-200). -/
def validate_decision : Decision → Bool
  | .pause _ => true
  | .buy _ a tp sl =>
    if a ≤ 0 then false
    else if tp ≤ 0 ∨ tp > 100 then false
    else if sl ≤ 0 ∨ sl > 100 then false
    else if tp ≤ sl then false
    else true
  | .sell _ a => if a ≤ 0 then false else true
  | .cancel _ oid => if oid = "" ∨ pyStrip oid = "" then false else true

/-- Embedding of `ResponseParser.parse_and_validate`. -/
def parse_and_validate (s : String) : Except ParseErr Decision :=
  match parse_response s with
  | .error e => .error e
  | .ok d => if validate_decision d then .ok d else .error .validationFailed

/-! ## `OpenAISimpleHandler`

State-passing embedding of `services/openai_simple_handler.py`.  The mutable
instance state becomes `HandlerState`; the upstream chat-completion call is a
parameter mapping the index of the call made during one invocation to its
outcome; rendering of the market-data prompt (`_prepare_initial_message` /
`_prepare_update_message`) is abstracted as the `message` argument, since no
claim depends on the prompt text.  The `async with self._request_lock` block
makes each invocation atomic, so the whole call is one transition. -/

structure ChatMessage where
  role : String
  content : String
deriving DecidableEq

structure HandlerState where
  conversation_history : List ChatMessage
  last_successful_response : Option String
  retry_count : ℕ
  request_in_progress : Bool
  last_request_timestamp : ℚ
deriving DecidableEq

def max_retries : ℕ := 3

/-- Constant `retry_delay` (seconds). -/
def retry_delay : ℕ := 300

/-- Constant `_min_request_interval` (seconds). -/
def min_request_interval : ℚ := 5

inductive LlmErr where
  | regionDenied
  | otherError
deriving DecidableEq

/-- Outcome of one upstream `chat.completions.create` call. -/
inductive UpstreamResult where
  | ok (content : String)
  | regionDenied
  | otherError

structure DecisionOutcome where
  result : Except LlmErr String
  state : HandlerState
  upstreamCalls : ℕ
  sleptSeconds : ℕ

/-- The literal returned when a request is rejected for arriving too soon
(source line 373). -/
def tooFrequentPause : String :=
  "\x7b\"status\": \"pause\", \"response\": \"ПРОГНОЗ: НЕОПРЕДЕЛЕННО - слишком частые запросы, ожидаю\"\x7d"

/-- The literal returned when a request is rejected because one is in flight
(source line 381). -/
def inProgressPause : String :=
  "\x7b\"status\": \"pause\", \"response\": \"ПРОГНОЗ: НЕОПРЕДЕЛЕННО - предыдущий запрос еще обрабатывается\"\x7d"

/-- The corrective follow-up turn sent after an invalid status (source line
432). -/
def clarificationMessage : String :=
  "ВНИМАНИЕ! Твой предыдущий ответ содержал неправильный статус. ИСПОЛЬЗУЙ ТОЛЬКО: pause, buy, sell, cancel. Дай правильный ответ:"

/-- The fallback `json.dumps` pause produced by `_handle_region_error` when no
previous successful response exists; `retry_delay` floordiv 60 renders as 5 and
`max_retries` as 3. -/
def regionPauseJson (rc : ℕ) : String :=
  "\x7b\"status\": \"pause\", \"response\": \"Ошибка региона OpenAI, ожидание 5 минут (попытка " ++ toString rc ++ "/3)\"\x7d"

/-- The literal returned by `check_orders_decision` when the upstream exchange
raises (source line 737). -/
def ordersErrorPause : String :=
  "\x7b\"status\": \"pause\", \"response\": \"ОШИБКА ПРОВЕРКИ ОРДЕРОВ\"\x7d"

/-- Embedding of `_is_valid_response`: strip, `json.loads`, read `status` (empty default),
lower-case, test against the closed set; any raised exception yields `False`
(a non-object value or a non-string status raises inside the `try`). -/
def is_valid_response (s : String) : Bool :=
  match jsonDecode (pyStrip s) with
  | some (.jobj fields) =>
    match getField fields "status" with
    | some (.jstr t) => validStatuses.contains (pyToLower t)
    | some _ => false
    | none => false
  | _ => false

/-- History trimming (source lines 464-465 and 730-731): keep the last 10
entries when the list has grown beyond 10. -/
def trimHistory (l : List ChatMessage) : List ChatMessage :=
  if l.length > 10 then l.drop (l.length - 10) else l

def appendUser (st : HandlerState) (content : String) : HandlerState :=
  { st with conversation_history := st.conversation_history ++ [⟨"user", content⟩] }

/-- Success tail of `get_trading_decision` (source lines 453-468 plus the
`finally`): record the reply, reset the retry counter, append the assistant
turn, trim, release the in-progress flag. -/
def finishSuccess (st : HandlerState) (resp : String) (calls : ℕ) : DecisionOutcome :=
  let st' : HandlerState :=
    { conversation_history := trimHistory (st.conversation_history ++ [⟨"assistant", resp⟩])
      last_successful_response := some resp
      retry_count := 0
      request_in_progress := false
      last_request_timestamp := st.last_request_timestamp }
  ⟨.ok resp, st', calls, 0⟩

/-- Region-denied tail (`_handle_region_error` plus source lines 470-481 and
the `finally`): increment the counter; beyond `max_retries` propagate the
original error, otherwise sleep `retry_delay` and return the last successful
response or the synthesized pause. -/
def finishRegionError (st : HandlerState) (calls : ℕ) : DecisionOutcome :=
  let rc := st.retry_count + 1
  let st' := { st with retry_count := rc, request_in_progress := false }
  if rc > max_retries then ⟨.error .regionDenied, st', calls, 0⟩
  else
    match st.last_successful_response with
    | some r => ⟨.ok r, st', calls, retry_delay⟩
    | none => ⟨.ok (regionPauseJson rc), st', calls, retry_delay⟩

/-- Any other upstream failure is re-raised unchanged (source lines 482-487),
after the `finally` releases the flag. -/
def finishOtherError (st : HandlerState) (calls : ℕ) : DecisionOutcome :=
  ⟨.error .otherError, { st with request_in_progress := false }, calls, 0⟩

/-- The upstream exchange of `get_trading_decision` once the duplicate-request
guards have been passed (source lines 388-491): one completion call, a single
corrective follow-up call on an invalid status whose reply is accepted
unchecked, and the success / region-denied / re-raise tails. -/
def runUpstream (st1 : HandlerState) (upstream : ℕ → UpstreamResult) : DecisionOutcome :=
  match upstream 0 with
  | .ok resp =>
    if is_valid_response resp then finishSuccess st1 resp 1
    else
      let st2 := appendUser st1 clarificationMessage
      match upstream 1 with
      | .ok resp2 => finishSuccess st2 resp2 2
      | .regionDenied => finishRegionError st2 2
      | .otherError => finishOtherError st2 2
  | .regionDenied => finishRegionError st1 1
  | .otherError => finishOtherError st1 1

/-- Embedding of `get_trading_decision` (source lines 350-491). -/
def get_trading_decision (st : HandlerState) (now : ℚ) (isInitial : Bool)
    (message : String) (upstream : ℕ → UpstreamResult) : DecisionOutcome :=
  if isInitial = false ∧ now - st.last_request_timestamp < min_request_interval then
    match st.last_successful_response with
    | some r => ⟨.ok r, st, 0, 0⟩
    | none => ⟨.ok tooFrequentPause, st, 0, 0⟩
  else if st.request_in_progress then
    match st.last_successful_response with
    | some r => ⟨.ok r, st, 0, 0⟩
    | none => ⟨.ok inProgressPause, st, 0, 0⟩
  else
    runUpstream (appendUser
      { st with request_in_progress := true, last_request_timestamp := now } message) upstream

structure OrdersOutcome where
  response : String
  state : HandlerState
  upstreamCalls : ℕ

/-- Embedding of `check_orders_decision` (source lines 684-737): append the user turn, call
upstream once (no throttle, no validity re-check), on success append and trim,
on any exception return the fixed pause string with the user turn left in the
history untrimmed. -/
def check_orders_decision (st : HandlerState) (message : String)
    (upstream : UpstreamResult) : OrdersOutcome :=
  let st1 := appendUser st message
  match upstream with
  | .ok resp =>
    ⟨resp,
      { st1 with conversation_history :=
          trimHistory (st1.conversation_history ++ [⟨"assistant", resp⟩]) }, 1⟩
  | _ => ⟨ordersErrorPause, st1, 1⟩

/-! ## Orchestrator (`trading_bot.py`)

The market snapshot is reduced to the fields the orchestrator reads:
`user_data.balances.USDT`, `user_data.balances.BTC` (both defaulted to 0 by the
`.get` chains) and the list of active order ids. -/

structure MarketSnapshot where
  usdtBalance : ℚ
  btcBalance : ℚ
  activeOrders : List String
deriving DecidableEq

/-- The trading-API mutations and reads issued by the orchestrator.
Modelled from the spec: the client methods `cancel_order_by_inst_id`,
`sell_all_btc` and `get_orders` invoked by `trading_bot.py` are absent from the
`TradingAPIClient` in `services/api_client.py`; per spec sections 4.2 and 6
they are plain HTTP operations (cancel an order of an instrument, sell the
whole BTC balance, list active orders), modelled here as opaque effects. -/
inductive ApiCall where
  | placeBuyOrder (amount take_profit stop_loss : ℚ)
  | placeSellOrder (amount : ℚ)
  | cancelOrder (order_id : String)
  | cancelOrderByInstId (inst_id order_id : String)
  | getOrders
  | getMarketMonitor
  | sellAllBtc
deriving DecidableEq

/-- Embedding of `TradingBot.execute_decision` (source lines 184-267), as the sequence of
trading-API calls issued for a decision against a snapshot.  Telegram
notifications are not trading-API calls and are not modelled. -/
def execute_decision : Decision → MarketSnapshot → List ApiCall
  | .pause _, _ => []
  | .buy _ amt tp sl, m =>
    if amt < 10 then []
    else if m.usdtBalance < amt then []
    else if amt > m.usdtBalance - 35 then []
    else [.placeBuyOrder amt tp sl]
  | .sell _ amt, _ => [.placeSellOrder amt]
  | .cancel _ oid, _ => [.cancelOrder oid]

/-- The order-review decision variants (`models/responses.py`:
`PauseDecision`, `OrdersCancelDecision`, `OrdersSellDecision`). -/
inductive OrdersDecision where
  | pause (response : String)
  | ordersCancel (response : String) (order_id : String)
  | ordersSell (response : String) (sell_amount : Option ℚ)
deriving DecidableEq

/-- Embedding of `TradingBot._handle_post_cancel_actions` (source lines 330-357): refetch
the monitor snapshot and, whenever the BTC balance is positive, liquidate it
all; the list of remaining open orders is never consulted. -/
def handle_post_cancel_actions (monitor : MarketSnapshot) : List ApiCall :=
  .getMarketMonitor :: (if monitor.btcBalance > 0 then [.sellAllBtc] else [])

/-- Embedding of `TradingBot.execute_orders_decision` (source lines 269-328).  The
`getOrders` read serves the Telegram notification detail lookup; after every
cancel the post-cancel handler runs unconditionally.  `monitor` is the
snapshot that `_handle_post_cancel_actions` fetches after the cancel. -/
def execute_orders_decision (d : OrdersDecision) (monitor : MarketSnapshot) :
    List ApiCall :=
  match d with
  | .pause _ => []
  | .ordersCancel _ oid =>
    [.cancelOrderByInstId "BTC-USDT" oid, .getOrders] ++ handle_post_cancel_actions monitor
  | .ordersSell _ none => [.sellAllBtc]
  | .ordersSell _ (some amt) => [.placeSellOrder amt]

/-! ## Claims -/

/-- C1: for every Buy decision and snapshot, `execute_decision` issues
`place_buy_order` iff the amount is at least the 10 USDT minimum, at most the
reported USDT balance, and at most balance minus the 35 USDT reserve; an amount
of 5 is always a no-op, balance minus 34 is rejected, and (whenever it also
clears the 10 USDT floor, i.e. the balance is at least 45) balance minus 35 is
accepted: the reserve boundary is inclusive. -/
theorem buy_safety_gate (r : String) (amt tp sl : ℚ) (m : MarketSnapshot) :
    (execute_decision (.buy r amt tp sl) m = [.placeBuyOrder amt tp sl] ↔
      10 ≤ amt ∧ amt ≤ m.usdtBalance ∧ amt ≤ m.usdtBalance - 35) ∧
    execute_decision (.buy r 5 tp sl) m = [] ∧
    execute_decision (.buy r (m.usdtBalance - 35 + 1) tp sl) m = [] ∧
    (45 ≤ m.usdtBalance →
      execute_decision (.buy r (m.usdtBalance - 35) tp sl) m =
        [.placeBuyOrder (m.usdtBalance - 35) tp sl]) := by
  refine ⟨?_, ?_, ?_, ?_⟩
  · simp only [execute_decision]
    split_ifs with h1 h2 h3
    · constructor
      · intro h; exact absurd h (by simp)
      · rintro ⟨h10, -, -⟩; linarith
    · constructor
      · intro h; exact absurd h (by simp)
      · rintro ⟨-, hb, -⟩; linarith
    · constructor
      · intro h; exact absurd h (by simp)
      · rintro ⟨-, -, hr35⟩; linarith
    · constructor
      · intro _; exact ⟨by linarith, by linarith, by linarith⟩
      · intro _; rfl
  · simp only [execute_decision]
    rw [if_pos (by norm_num)]
  · simp only [execute_decision]
    split_ifs with h1 h2 <;> first | rfl | linarith
  · intro hbal
    simp only [execute_decision]
    rw [if_neg (by linarith), if_neg (by linarith), if_neg (by linarith)]

/-- Witness for C1 at a concrete balance of 100 USDT: the boundary amount 65 is
accepted. -/
theorem buy_safety_gate_witness :
    (45 : ℚ) ≤ (100 : ℚ) ∧
    execute_decision (.buy "x" ((100 : ℚ) - 35) 5 1) ⟨100, 0, []⟩ =
      [.placeBuyOrder ((100 : ℚ) - 35) 5 1] :=
  ⟨by norm_num, (buy_safety_gate "x" 65 5 1 ⟨100, 0, []⟩).2.2.2 (by norm_num)⟩

/-- C6: `validate_decision` is a pure boolean predicate accepting a Buy iff
the amount is positive, both percentages lie in the half-open interval from 0
to 100, and take-profit strictly exceeds stop-loss; a Sell iff the amount is
positive; a Cancel iff the order id is non-empty after trimming; and every
Pause. -/
theorem validate_decision_spec (d : Decision) :
    validate_decision d = true ↔
      (match d with
       | .pause _ => True
       | .buy _ a tp sl => 0 < a ∧ 0 < tp ∧ tp ≤ 100 ∧ 0 < sl ∧ sl ≤ 100 ∧ sl < tp
       | .sell _ a => 0 < a
       | .cancel _ oid => pyStrip oid ≠ "") := by
  cases d with
  | pause r => simp [validate_decision]
  | buy r a tp sl =>
    simp only [validate_decision]
    split_ifs with h1 h2 h3 h4
    · simp only [Bool.false_eq_true, false_iff]
      rintro ⟨h01, -, -, -, -, -⟩; linarith
    · simp only [Bool.false_eq_true, false_iff]
      rintro ⟨-, h02, h03, -, -, -⟩
      rcases h2 with h2 | h2 <;> linarith
    · simp only [Bool.false_eq_true, false_iff]
      rintro ⟨-, -, -, h04, h05, -⟩
      rcases h3 with h3 | h3 <;> linarith
    · simp only [Bool.false_eq_true, false_iff]
      rintro ⟨-, -, -, -, -, h06⟩; linarith
    · push_neg at h1 h2 h3 h4
      simp only [true_iff]
      exact ⟨h1, h2.1, h2.2, h3.1, h3.2, h4⟩
  | sell r a =>
    simp only [validate_decision]
    split_ifs with h1
    · simp only [Bool.false_eq_true, false_iff]
      intro h0; linarith
    · push_neg at h1
      simp only [true_iff]
      exact h1
  | cancel r oid =>
    simp only [validate_decision]
    split_ifs with h1
    · simp only [Bool.false_eq_true, false_iff]
      intro hne
      rcases h1 with h1 | h1
      · exact hne (by rw [h1]; rfl)
      · exact hne h1
    · push_neg at h1
      simp only [true_iff]
      exact h1.2

/-- C2: for every decoded JSON object carrying `status` and `response` keys,
when the lower-cased status is outside the closed set the parser does not
fail: it returns a Pause decision whose response text mentions the original
invalid status value, whatever that value was. -/
theorem invalid_status_becomes_pause (fields : List (String × JVal)) (s0 r : String)
    (hs : getField fields "status" = some (.jstr s0))
    (hr : getField fields "response" = some (.jstr r))
    (hinv : pyToLower s0 ∉ validStatuses) :
    parseResponseData (.jobj fields) =
      .ok (.pause ("Исправлен неправильный статус \x27" ++ s0 ++ "\x27 на pause. " ++ r)) := by
  simp only [parseResponseData, hs, hr]
  rw [if_neg hinv]
  simp [fixedStatusNote, pyStr]

/-- Witness for C2: the unknown status `strategy` is rewritten to a pause. -/
theorem invalid_status_becomes_pause_witness :
    parseResponseData (.jobj [("status", .jstr "strategy"), ("response", .jstr "hold")]) =
      .ok (.pause ("Исправлен неправильный статус \x27" ++ "strategy" ++ "\x27 на pause. " ++ "hold")) :=
  invalid_status_becomes_pause
    [("status", .jstr "strategy"), ("response", .jstr "hold")] "strategy" "hold"
    (by rfl) (by rfl) (by decide)

/-- C8 counterexample: a Cancel decision reviewed while another order is still
open (the post-cancel snapshot lists `ord-2`) and the BTC balance is positive
still triggers the sell-all liquidation, contradicting the claim that the
liquidation happens only when the cancel emptied all open orders. -/
theorem sell_all_ignores_open_orders :
    ApiCall.sellAllBtc ∈
      execute_orders_decision (.ordersCancel "r" "ord-1") ⟨40, 1, ["ord-2"]⟩ ∧
    (⟨40, 1, ["ord-2"]⟩ : MarketSnapshot).activeOrders ≠ [] := by
  constructor
  · simp [execute_orders_decision, handle_post_cancel_actions]
  · simp

/-- C8 amended: after executing a Cancel order-review decision the automatic
sell-all liquidation is performed exactly when the refetched BTC balance is
positive, regardless of whether open orders remain. -/
theorem sell_all_after_cancel_iff (r oid : String) (m : MarketSnapshot) :
    ApiCall.sellAllBtc ∈ execute_orders_decision (.ordersCancel r oid) m ↔
      0 < m.btcBalance := by
  simp only [execute_orders_decision, handle_post_cancel_actions]
  split_ifs with h
  · constructor
    · intro _; exact h
    · intro _; simp
  · constructor
    · intro hin; simp at hin
    · intro h0; exact absurd h0 h

/-- When neither duplicate-request guard fires, the call proceeds to the
upstream exchange with the in-progress flag set, the timestamp stamped and the
user turn appended. -/
theorem gate_open (st : HandlerState) (now : ℚ) (init : Bool) (msg : String)
    (up : ℕ → UpstreamResult)
    (hgate : init = true ∨ ¬ now - st.last_request_timestamp < min_request_interval)
    (hip : st.request_in_progress = false) :
    get_trading_decision st now init msg up =
      runUpstream (appendUser
        { st with request_in_progress := true, last_request_timestamp := now } msg) up := by
  have hg : ¬ (init = false ∧ now - st.last_request_timestamp < min_request_interval) := by
    rintro ⟨h1, h2⟩
    rcases hgate with h | h
    · rw [h1] at h; cases h
    · exact h h2
  simp only [get_trading_decision]
  rw [if_neg hg, if_neg (by rw [hip]; simp)]

/-- C3: every non-initial call that arrives within the 5 second minimum
interval of the previous request, or while another request is in flight, makes
no upstream completion call; it returns the cached last successful response, or
a synthesized Pause JSON explaining the throttle when no cached response
exists. -/
theorem throttle_fast_path (st : HandlerState) (now : ℚ) (msg : String)
    (up : ℕ → UpstreamResult)
    (h : now - st.last_request_timestamp < min_request_interval ∨
      st.request_in_progress = true) :
    (get_trading_decision st now false msg up).upstreamCalls = 0 ∧
    (∀ r, st.last_successful_response = some r →
      (get_trading_decision st now false msg up).result = .ok r) ∧
    (st.last_successful_response = none →
      (get_trading_decision st now false msg up).result = .ok tooFrequentPause ∨
      (get_trading_decision st now false msg up).result = .ok inProgressPause) := by
  obtain ⟨hist, last, rc, prog, ts⟩ := st
  by_cases hc : now - ts < min_request_interval
  · simp only [get_trading_decision]
    rw [if_pos ⟨by simp, hc⟩]
    cases last with
    | none =>
      refine ⟨rfl, ?_, ?_⟩
      · intro r hr; cases hr
      · intro _; exact Or.inl rfl
    | some r0 =>
      refine ⟨rfl, ?_, ?_⟩
      · intro r hr; cases hr; rfl
      · intro hn; cases hn
  · have hp : prog = true := by
      rcases h with h | h
      · exact absurd h hc
      · exact h
    simp only [get_trading_decision]
    rw [if_neg (by rintro ⟨-, h2⟩; exact hc h2), if_pos (by rw [hp])]
    cases last with
    | none =>
      refine ⟨rfl, ?_, ?_⟩
      · intro r hr; cases hr
      · intro _; exact Or.inr rfl
    | some r0 =>
      refine ⟨rfl, ?_, ?_⟩
      · intro r hr; cases hr; rfl
      · intro hn; cases hn

/-- Witness for C3: a second request 1 second after the first returns the
cached response without an upstream call. -/
theorem throttle_fast_path_witness :
    (get_trading_decision ⟨[], some "prev", 0, false, 0⟩ 1 false "m"
      (fun _ => .otherError)).upstreamCalls = 0 ∧
    (get_trading_decision ⟨[], some "prev", 0, false, 0⟩ 1 false "m"
      (fun _ => .otherError)).result = .ok "prev" := by
  have h := throttle_fast_path ⟨[], some "prev", 0, false, 0⟩ 1 "m"
    (fun _ => .otherError)
    (Or.inl (by norm_num [min_request_interval]))
  exact ⟨h.1, h.2.1 "prev" rfl⟩

/-- C10: a call rejected on either fast path (interval not yet elapsed on a
non-initial call, or a request already in flight) leaves the handler state
completely unchanged: history, cached response, retry counter, timestamp and
in-flight flag. -/
theorem fast_path_frame (st : HandlerState) (now : ℚ) (init : Bool) (msg : String)
    (up : ℕ → UpstreamResult)
    (h : (init = false ∧ now - st.last_request_timestamp < min_request_interval) ∨
      st.request_in_progress = true) :
    (get_trading_decision st now init msg up).state = st := by
  obtain ⟨hist, last, rc, prog, ts⟩ := st
  by_cases hc : init = false ∧ now - ts < min_request_interval
  · simp only [get_trading_decision]
    rw [if_pos hc]
    cases last <;> rfl
  · have hp : prog = true := by
      rcases h with h | h
      · exact absurd h hc
      · exact h
    simp only [get_trading_decision]
    rw [if_neg hc, if_pos (by rw [hp])]
    cases last <;> rfl

/-- Witness for C10: a rejected duplicate while a request is in flight leaves
the state untouched. -/
theorem fast_path_frame_witness :
    (get_trading_decision ⟨[⟨"user", "u"⟩], some "prev", 2, true, 3⟩ 100 false "m"
      (fun _ => .otherError)).state = ⟨[⟨"user", "u"⟩], some "prev", 2, true, 3⟩ :=
  fast_path_frame ⟨[⟨"user", "u"⟩], some "prev", 2, true, 3⟩ 100 false "m"
    (fun _ => .otherError) (Or.inr rfl)

/-- C4: when the upstream call fails with the region/permission-denied
condition the retry counter is incremented; while the incremented counter stays
within `max_retries` the error is not propagated and the call returns the last
successful response (or a synthesized Pause explaining the wait) after the
fixed `retry_delay` sleep; beyond `max_retries` the original error is
propagated; and any successful upstream reply resets the counter to 0. -/
theorem region_error_handling :
    (∀ (st : HandlerState) (now : ℚ) (init : Bool) (msg : String)
        (up : ℕ → UpstreamResult),
      (init = true ∨ ¬ now - st.last_request_timestamp < min_request_interval) →
      st.request_in_progress = false →
      up 0 = .regionDenied →
      ((get_trading_decision st now init msg up).state.retry_count = st.retry_count + 1 ∧
       (st.retry_count + 1 ≤ max_retries →
         (get_trading_decision st now init msg up).result =
           .ok (st.last_successful_response.getD (regionPauseJson (st.retry_count + 1))) ∧
         (get_trading_decision st now init msg up).sleptSeconds = retry_delay) ∧
       (max_retries < st.retry_count + 1 →
         (get_trading_decision st now init msg up).result = .error .regionDenied))) ∧
    (∀ (st : HandlerState) (now : ℚ) (init : Bool) (msg s : String)
        (up : ℕ → UpstreamResult),
      (init = true ∨ ¬ now - st.last_request_timestamp < min_request_interval) →
      st.request_in_progress = false →
      up 0 = .ok s → is_valid_response s = true →
      (get_trading_decision st now init msg up).state.retry_count = 0) ∧
    (∀ (st : HandlerState) (now : ℚ) (init : Bool) (msg s s2 : String)
        (up : ℕ → UpstreamResult),
      (init = true ∨ ¬ now - st.last_request_timestamp < min_request_interval) →
      st.request_in_progress = false →
      up 0 = .ok s → is_valid_response s = false → up 1 = .ok s2 →
      (get_trading_decision st now init msg up).state.retry_count = 0) := by
  refine ⟨?_, ?_, ?_⟩
  · intro st now init msg up hgate hip h0
    rw [gate_open st now init msg up hgate hip]
    simp only [runUpstream, h0, finishRegionError, appendUser]
    by_cases hb : st.retry_count + 1 > max_retries
    · rw [if_pos hb]
      refine ⟨rfl, ?_, ?_⟩
      · intro hle; omega
      · intro _; rfl
    · rw [if_neg hb]
      cases hls : st.last_successful_response with
      | none =>
        refine ⟨rfl, ?_, ?_⟩
        · intro _; exact ⟨rfl, rfl⟩
        · intro hgt; omega
      | some r =>
        refine ⟨rfl, ?_, ?_⟩
        · intro _; exact ⟨rfl, rfl⟩
        · intro hgt; omega
  · intro st now init msg s up hgate hip h0 hv
    rw [gate_open st now init msg up hgate hip]
    simp only [runUpstream, h0]
    rw [if_pos hv]
    rfl
  · intro st now init msg s s2 up hgate hip h0 hv h1
    rw [gate_open st now init msg up hgate hip]
    simp only [runUpstream, h0, h1]
    rw [if_neg (by simp [hv])]
    rfl

/-- Witness for C4: the first region-denied failure with no cached response
returns the synthesized Pause after the 300 second sleep, with the counter at
1. -/
theorem region_error_handling_witness :
    (get_trading_decision ⟨[], none, 0, false, 0⟩ 10 false "m"
      (fun _ => .regionDenied)).result = .ok (regionPauseJson 1) ∧
    (get_trading_decision ⟨[], none, 0, false, 0⟩ 10 false "m"
      (fun _ => .regionDenied)).state.retry_count = 1 ∧
    (get_trading_decision ⟨[], none, 0, false, 0⟩ 10 false "m"
      (fun _ => .regionDenied)).sleptSeconds = retry_delay := by
  have h := region_error_handling.1 ⟨[], none, 0, false, 0⟩ 10 false "m"
    (fun _ => .regionDenied)
    (Or.inr (by norm_num [min_request_interval])) rfl rfl
  have h2 := h.2.1 (by norm_num [max_retries])
  exact ⟨h2.1, h.1, h2.2⟩

/-- C5: when the first upstream reply fails the lightweight closed-set status
check, exactly one corrective follow-up call is made, and whatever that single
retry produces is accepted: stored as the last successful response, appended to
the history, and returned, with no validity re-check and no third call. -/
theorem corrective_retry_once (st : HandlerState) (now : ℚ) (init : Bool)
    (msg s s2 : String) (up : ℕ → UpstreamResult)
    (hgate : init = true ∨ ¬ now - st.last_request_timestamp < min_request_interval)
    (hip : st.request_in_progress = false)
    (h0 : up 0 = .ok s) (hv : is_valid_response s = false) (h1 : up 1 = .ok s2) :
    (get_trading_decision st now init msg up).upstreamCalls = 2 ∧
    (get_trading_decision st now init msg up).result = .ok s2 ∧
    (get_trading_decision st now init msg up).state.last_successful_response = some s2 ∧
    (get_trading_decision st now init msg up).state.conversation_history =
      trimHistory (st.conversation_history ++
        [⟨"user", msg⟩, ⟨"user", clarificationMessage⟩, ⟨"assistant", s2⟩]) := by
  rw [gate_open st now init msg up hgate hip]
  simp only [runUpstream, h0, h1]
  rw [if_neg (by simp [hv])]
  refine ⟨rfl, rfl, rfl, ?_⟩
  simp [finishSuccess, appendUser, List.append_assoc]

/-- Witness for C5: an unparseable first reply triggers exactly one corrective
call whose reply is returned. -/
theorem corrective_retry_once_witness :
    (get_trading_decision ⟨[], none, 0, false, 0⟩ 10 false "m"
      (fun n => if n = 0 then .ok "invalid" else .ok "second")).upstreamCalls = 2 ∧
    (get_trading_decision ⟨[], none, 0, false, 0⟩ 10 false "m"
      (fun n => if n = 0 then .ok "invalid" else .ok "second")).result = .ok "second" := by
  have h := corrective_retry_once ⟨[], none, 0, false, 0⟩ 10 false "m" "invalid" "second"
    (fun n => if n = 0 then .ok "invalid" else .ok "second")
    (Or.inr (by norm_num [min_request_interval])) rfl rfl (by decide) rfl
  exact ⟨h.1, h.2.1⟩

theorem trimHistory_length_le_ten (l : List ChatMessage) :
    (trimHistory l).length ≤ 10 := by
  unfold trimHistory
  split_ifs with h
  · simp only [List.length_drop]; omega
  · omega

/-- History growth of one upstream exchange: a successful exchange is trimmed
to at most 10 turns; an exchange that ends in an error or a region fallback
leaves at most one extra appended turn beyond the entry state. -/
theorem runUpstream_history_le (st1 : HandlerState) (up : ℕ → UpstreamResult) :
    (runUpstream st1 up).state.conversation_history.length ≤
      max 10 (st1.conversation_history.length + 1) := by
  cases h0 : up 0 with
  | ok s =>
    by_cases hv : is_valid_response s = true
    · simp only [runUpstream, h0, hv, if_true]
      exact le_trans (trimHistory_length_le_ten _) (le_max_left _ _)
    · simp only [runUpstream, h0, hv, Bool.false_eq_true, if_false]
      cases h1 : up 1 with
      | ok s2 =>
        exact le_trans (trimHistory_length_le_ten _) (le_max_left _ _)
      | regionDenied =>
        refine le_trans ?_ (le_max_right _ _)
        simp only [finishRegionError, appendUser]
        split_ifs with hb
        · simp
        · cases st1.last_successful_response <;> simp
      | otherError =>
        refine le_trans ?_ (le_max_right _ _)
        simp [finishOtherError, appendUser]
  | regionDenied =>
    refine le_trans ?_ (le_max_right _ _)
    simp only [runUpstream, h0, finishRegionError]
    split_ifs with hb
    · simp
    · cases st1.last_successful_response <;> simp
  | otherError =>
    refine le_trans ?_ (le_max_right _ _)
    simp [runUpstream, h0, finishOtherError]

/-- C9 counterexample: with the history already at 10 entries, an order-review
call whose upstream exchange raises returns through the error path with 11
entries in the history: the 10-entry cap does not hold on every return path. -/
theorem history_cap_counterexample :
    (check_orders_decision ⟨List.replicate 10 ⟨"user", "m"⟩, none, 0, false, 0⟩
      "msg" .otherError).state.conversation_history.length = 11 ∧
    ¬ (check_orders_decision ⟨List.replicate 10 ⟨"user", "m"⟩, none, 0, false, 0⟩
      "msg" .otherError).state.conversation_history.length ≤ 10 := by
  constructor
  · simp [check_orders_decision, appendUser]
  · simp [check_orders_decision, appendUser]

/-- C9 amended: the cap holds on the paths that complete an upstream exchange:
after a successful decision call (direct or corrective) and after a successful
order-review call the history equals the most recent 10 of the appended turns
(so its length is at most 10); a throttle-rejected call leaves the history
unchanged; error and region-fallback paths leave the appended user (and
possibly correction) turns untrimmed, so the length can temporarily exceed 10,
bounded by the previous length plus 2 (and re-trimmed at the next success). -/
theorem history_bound :
    (∀ (st : HandlerState) (now : ℚ) (msg : String) (up : ℕ → UpstreamResult),
      (now - st.last_request_timestamp < min_request_interval ∨
        st.request_in_progress = true) →
      (get_trading_decision st now false msg up).state.conversation_history =
        st.conversation_history) ∧
    (∀ (st : HandlerState) (now : ℚ) (init : Bool) (msg s : String)
        (up : ℕ → UpstreamResult),
      (init = true ∨ ¬ now - st.last_request_timestamp < min_request_interval) →
      st.request_in_progress = false →
      up 0 = .ok s → is_valid_response s = true →
      (get_trading_decision st now init msg up).state.conversation_history =
        trimHistory (st.conversation_history ++ [⟨"user", msg⟩, ⟨"assistant", s⟩]) ∧
      (get_trading_decision st now init msg up).state.conversation_history.length ≤ 10) ∧
    (∀ (st : HandlerState) (now : ℚ) (init : Bool) (msg s s2 : String)
        (up : ℕ → UpstreamResult),
      (init = true ∨ ¬ now - st.last_request_timestamp < min_request_interval) →
      st.request_in_progress = false →
      up 0 = .ok s → is_valid_response s = false → up 1 = .ok s2 →
      (get_trading_decision st now init msg up).state.conversation_history =
        trimHistory (st.conversation_history ++
          [⟨"user", msg⟩, ⟨"user", clarificationMessage⟩, ⟨"assistant", s2⟩]) ∧
      (get_trading_decision st now init msg up).state.conversation_history.length ≤ 10) ∧
    (∀ (st : HandlerState) (now : ℚ) (init : Bool) (msg : String)
        (up : ℕ → UpstreamResult),
      (get_trading_decision st now init msg up).state.conversation_history.length ≤
        max 10 (st.conversation_history.length + 2)) ∧
    (∀ (st : HandlerState) (msg s : String),
      (check_orders_decision st msg (.ok s)).state.conversation_history =
        trimHistory (st.conversation_history ++ [⟨"user", msg⟩, ⟨"assistant", s⟩]) ∧
      (check_orders_decision st msg (.ok s)).state.conversation_history.length ≤ 10) ∧
    (∀ (st : HandlerState) (msg : String) (u : UpstreamResult),
      (u = .regionDenied ∨ u = .otherError) →
      (check_orders_decision st msg u).state.conversation_history =
        st.conversation_history ++ [⟨"user", msg⟩]) := by
  refine ⟨?_, ?_, ?_, ?_, ?_, ?_⟩
  · intro st now msg up h
    obtain ⟨hist, last, rc, prog, ts⟩ := st
    by_cases hc : now - ts < min_request_interval
    · simp only [get_trading_decision]
      rw [if_pos ⟨by simp, hc⟩]
      cases last <;> rfl
    · have hp : prog = true := by
        rcases h with h | h
        · exact absurd h hc
        · exact h
      simp only [get_trading_decision]
      rw [if_neg (by rintro ⟨-, h2⟩; exact hc h2), if_pos (by rw [hp])]
      cases last <;> rfl
  · intro st now init msg s up hgate hip h0 hv
    rw [gate_open st now init msg up hgate hip]
    simp only [runUpstream, h0, hv, if_true]
    constructor
    · simp [finishSuccess, appendUser, List.append_assoc]
    · exact trimHistory_length_le_ten _
  · intro st now init msg s s2 up hgate hip h0 hv h1
    rw [gate_open st now init msg up hgate hip]
    simp only [runUpstream, h0, h1]
    rw [if_neg (by simp [hv])]
    constructor
    · simp [finishSuccess, appendUser, List.append_assoc]
    · exact trimHistory_length_le_ten _
  · intro st now init msg up
    obtain ⟨hist, last, rc, prog, ts⟩ := st
    by_cases h1 : init = false ∧ now - ts < min_request_interval
    · simp only [get_trading_decision]
      rw [if_pos h1]
      cases last <;>
        exact le_trans (by simp) (le_max_right _ _)
    · by_cases h2 : prog = true
      · simp only [get_trading_decision]
        rw [if_neg h1, if_pos (by rw [h2])]
        cases last <;>
          exact le_trans (by simp) (le_max_right _ _)
      · have hp : prog = false := by
          cases prog
          · rfl
          · exact absurd rfl h2
        subst hp
        have hgate : init = true ∨ ¬ now - ts < min_request_interval := by
          cases init with
          | false =>
            right; intro hlt; exact h1 ⟨rfl, hlt⟩
          | true => left; rfl
        rw [gate_open ⟨hist, last, rc, false, ts⟩ now init msg up hgate rfl]
        have hb := runUpstream_history_le
          (appendUser ⟨hist, last, rc, true, now⟩ msg) up
        simp only [appendUser, List.length_append, List.length_cons,
          List.length_nil] at hb
        exact le_trans hb (max_le_max (le_refl _) (by simp))
  · intro st msg s
    have heq : (check_orders_decision st msg (.ok s)).state.conversation_history =
        trimHistory (st.conversation_history ++
          [⟨"user", msg⟩, ⟨"assistant", s⟩]) := by
      simp [check_orders_decision, appendUser, List.append_assoc]
    refine ⟨heq, ?_⟩
    rw [heq]
    exact trimHistory_length_le_ten _
  · intro st msg u hu
    rcases hu with hu | hu <;> subst hu <;> rfl

/-- Witness for C9 (amended): a successful order-review exchange on a 10-entry
history trims back to exactly the most recent 10 turns. -/
theorem history_bound_witness :
    (check_orders_decision ⟨List.replicate 10 ⟨"user", "m"⟩, none, 0, false, 0⟩
      "msg" (.ok "reply")).state.conversation_history =
      trimHistory (List.replicate 10 ⟨"user", "m"⟩ ++
        [⟨"user", "msg"⟩, ⟨"assistant", "reply"⟩]) ∧
    (check_orders_decision ⟨List.replicate 10 ⟨"user", "m"⟩, none, 0, false, 0⟩
      "msg" (.ok "reply")).state.conversation_history.length ≤ 10 := by
  have h := history_bound.2.2.2.2.1
    ⟨List.replicate 10 ⟨"user", "m"⟩, none, 0, false, 0⟩ "msg" "reply"
  exact h

/-- The malformed markdown-wrapped LLM reply from the test list of the specification. -/
def buyMarkdownReply : String := "Sure! ```json\n\x7b\"status\":\"buy\"\x7d\n```"

/-- C7 counterexample: the markdown-wrapped reply whose JSON is just the buy
status lacks the base `response` key, so `parse_and_validate` fails with the
missing-`response` ParseError, not one naming the three buy fields; and an
object with every required buy field present but a non-positive amount still
raises a ParseError (the wrapped pydantic validation error), so absence of a
required field is not the only failure condition. -/
theorem missing_fields_counterexample :
    parse_and_validate buyMarkdownReply = .error .missingResponse ∧
    (∀ m, parse_and_validate buyMarkdownReply ≠ .error (.missingBuyFields m)) ∧
    parseResponseData (.jobj [("status", .jstr "buy"), ("response", .jstr "x"),
      ("buy_amount", .jnum 0), ("take_profit_percent", .jnum 5),
      ("stop_loss_percent", .jnum 1)]) = .error .unexpected := by
  have h1 : parse_and_validate buyMarkdownReply = .error .missingResponse := by rfl
  refine ⟨h1, ?_, by rfl⟩
  intro m h
  rw [h1] at h
  simp at h

/-- C7 amended: for decoded objects carrying both `status` and a string
`response`, the missing-field ParseError is raised exactly when a
variant-required field is absent (the buy error lists exactly the absent
fields), and `pause` requires nothing beyond the base fields; with the required
fields present parsing can still fail on value validation, and the markdown
example of the spec lacks `response` and therefore fails with the
missing-`response` ParseError instead. -/
theorem required_fields_exact (fields : List (String × JVal)) (s0 r : String)
    (hs : getField fields "status" = some (.jstr s0))
    (hr : getField fields "response" = some (.jstr r)) :
    (pyToLower s0 = "buy" →
      ((∃ m, parseResponseData (.jobj fields) = .error (.missingBuyFields m)) ↔
        requiredBuyFields.filter (fun f => (getField fields f).isNone) ≠ []) ∧
      (∀ m, parseResponseData (.jobj fields) = .error (.missingBuyFields m) →
        m = requiredBuyFields.filter (fun f => (getField fields f).isNone))) ∧
    (pyToLower s0 = "sell" →
      (parseResponseData (.jobj fields) = .error .missingSellAmount ↔
        getField fields "sell_amount" = none)) ∧
    (pyToLower s0 = "cancel" →
      (parseResponseData (.jobj fields) = .error .missingOrderId ↔
        getField fields "order_id" = none)) ∧
    (pyToLower s0 = "pause" → parseResponseData (.jobj fields) = .ok (.pause r)) := by
  refine ⟨?_, ?_, ?_, ?_⟩
  · intro hb
    simp only [parseResponseData, hs, hr, hb]
    rw [if_pos (by decide)]
    simp only [parseDispatch]
    rw [if_neg (by decide), if_pos trivial]
    by_cases hm : requiredBuyFields.filter (fun f => (getField fields f).isNone) = []
    · rw [if_pos hm]
      constructor
      · constructor
        · rintro ⟨m, hm2⟩
          exfalso
          rcases ha : (getField fields "buy_amount").bind asPosNum with - | a <;>
            rcases htp : (getField fields "take_profit_percent").bind asPosNum with - | tp <;>
              rcases hsl : (getField fields "stop_loss_percent").bind asPosNum with - | sl <;>
                simp [ha, htp, hsl, asStr] at hm2
        · intro hne; exact absurd hm hne
      · intro m hm2
        exfalso
        rcases ha : (getField fields "buy_amount").bind asPosNum with - | a <;>
          rcases htp : (getField fields "take_profit_percent").bind asPosNum with - | tp <;>
            rcases hsl : (getField fields "stop_loss_percent").bind asPosNum with - | sl <;>
              simp [ha, htp, hsl, asStr] at hm2
    · rw [if_neg hm]
      refine ⟨⟨fun _ => hm, fun _ => ⟨_, rfl⟩⟩, ?_⟩
      intro m hm2
      simp only [Except.error.injEq, ParseErr.missingBuyFields.injEq] at hm2
      exact hm2.symm
  · intro hsell
    simp only [parseResponseData, hs, hr, hsell]
    rw [if_pos (by decide)]
    simp only [parseDispatch]
    rw [if_neg (by decide), if_neg (by decide), if_pos trivial]
    by_cases hn : (getField fields "sell_amount").isNone
    · rw [if_pos hn]
      exact ⟨fun _ => Option.isNone_iff_eq_none.mp hn, fun _ => rfl⟩
    · rw [if_neg hn]
      constructor
      · intro hEq
        exfalso
        rcases ha : (getField fields "sell_amount").bind asPosNum with - | a <;>
          simp [ha, asStr] at hEq
      · intro hnone
        exact absurd (by rw [hnone]; rfl) hn
  · intro hcan
    simp only [parseResponseData, hs, hr, hcan]
    rw [if_pos (by decide)]
    simp only [parseDispatch]
    rw [if_neg (by decide), if_neg (by decide), if_neg (by decide), if_pos trivial]
    by_cases hn : (getField fields "order_id").isNone
    · rw [if_pos hn]
      exact ⟨fun _ => Option.isNone_iff_eq_none.mp hn, fun _ => rfl⟩
    · rw [if_neg hn]
      constructor
      · intro hEq
        exfalso
        rcases hgf : getField fields "order_id" with - | v
        · exact hn (by rw [hgf]; rfl)
        · cases v <;> simp [hgf, asStr] at hEq
      · intro hnone
        exact absurd (by rw [hnone]; rfl) hn
  · intro hp
    simp only [parseResponseData, hs, hr, hp]
    rw [if_pos (by decide)]
    simp only [parseDispatch]
    rw [if_pos trivial]
    simp [asStr]

/-- Witness for C7 (amended): a buy object with only the base fields yields the
missing-field error, and a bare pause object parses. -/
theorem required_fields_exact_witness :
    (∃ m, parseResponseData (.jobj [("status", .jstr "buy"), ("response", .jstr "x")]) =
      .error (.missingBuyFields m)) ∧
    parseResponseData (.jobj [("status", .jstr "pause"), ("response", .jstr "ok")]) =
      .ok (.pause "ok") := by
  constructor
  · exact ((required_fields_exact [("status", .jstr "buy"), ("response", .jstr "x")]
      "buy" "x" rfl rfl).1 (by decide)).1.mpr (by decide)
  · exact (required_fields_exact [("status", .jstr "pause"), ("response", .jstr "ok")]
      "pause" "ok" rfl rfl).2.2.2 (by decide)
